import Mathlib

/-!
Shallow embedding of `internal/glance/widget-bilibili.go` (package `glance`):
the per-UP TTL video cache, the rate-limited HTTP client, the concurrent
fetch of UP videos, and the merge/sort/truncate aggregation of
`bilibiliWidget.update`, together with proofs of the specification claims.

Modelling conventions:
* Go `time.Time` / `time.Duration` values are integers (nanoseconds); the
  zero `time.Time{}` is `0`.
* Go `error` results of a single HTTP-and-decode step are `Except Unit`,
  the payload of the error being irrelevant to the widget logic.
* The widget's `Error error` field is an `Option WidgetError`; `nil` is
  `none`.
* The Go map `cachedVideos` is an association list read through
  `lookupCache`; map assignment prepends (`insertCache`), which is
  observationally the Go map under `lookupCache`.
* The network is a parameter `outcome : String → Except Unit BiliResponse`
  giving, per UP uid, the decoded response or the transport/decode error.
-/

/-- One video item, mirroring the fields of `video` that
`widget-bilibili.go` constructs and reads (`TimePosted` is the sort key,
epoch seconds as in `time.Unix(v.Created, 0)`). -/
structure BVideo where
  thumbnailUrl : String
  title : String
  url : String
  author : String
  authorUrl : String
  timePosted : Int
  deriving DecidableEq

/-- One entry of `bilibiliVideoResponse.Data.List.Vlist`. -/
structure BiliVlistItem where
  title : String
  author : String
  aid : Int
  bvid : String
  pic : String
  created : Int
  deriving DecidableEq

/-- The decoded `bilibiliVideoResponse` (the nested `Data.List.Vlist`
wrapper structs carry no other data and are flattened). -/
structure BiliResponse where
  code : Int
  message : String
  vlist : List BiliVlistItem
  deriving DecidableEq

/-- `widget-bilibili.go` line 437-444: build one `video` from a `Vlist`
entry of the response for uid `uids[i]`. -/
def toVideo (uid : String) (v : BiliVlistItem) : BVideo :=
  { thumbnailUrl := v.pic
    title := v.title
    url := "https://www.bilibili.com/video/" ++ v.bvid
    author := v.author
    authorUrl := "https://space.bilibili.com/" ++ uid
    timePosted := v.created }

/-- Go `strings.HasSuffix s t` (a plain suffix test on the characters). -/
def hasSuffix (s t : String) : Bool :=
  decide (t.data <:+ s.data)

/-- Descending order on publish time: `a` is at least as new as `b`. -/
def videoGE (a b : BVideo) : Prop :=
  b.timePosted ≤ a.timePosted

instance : DecidableRel videoGE := fun a b => by
  unfold videoGE; infer_instance

instance : IsTotal BVideo videoGE :=
  ⟨fun a b => le_total b.timePosted a.timePosted⟩

instance : IsTrans BVideo videoGE :=
  ⟨fun _ _ _ h h' => le_trans h' h⟩

/-- Modelled from the spec: `videoList.sortByNewest` is defined outside the
subject file (`widget-videos.go` is not under `src/`); per spec section 3
the sort key is the publish timestamp, descending, with ties broken by
stable input order, so it is modelled as a stable insertion sort by
descending publish time. -/
def sortByNewest (l : List BVideo) : List BVideo :=
  l.insertionSort videoGE

/-- Modelled from the Go standard library: `http.NewRequest` (line 359)
fails exactly when `url.Parse` rejects the request URL, which for the URL
template `"https://api.bilibili.com/x/space/arc/search?mid=%s&..."` happens
when the uid inserts an ASCII control character (`net/url`: "invalid
control character in URL"). -/
def newRequestOK (uid : String) : Bool :=
  uid.data.all fun c => decide (0x20 ≤ c.toNat) && !decide (c.toNat = 0x7f)

/-- Lines 352-381: the request slice handed to the worker pool. A uid whose
`http.NewRequest` fails is skipped (`continue`), so the pool sees only the
requests that could be built, in uid order. Each request is determined by
its uid, so requests are represented by their uids. -/
def builtRequests (uids : List String) : List String :=
  uids.filter newRequestOK

/-- Lines 389-392, worker-pool outcomes. Modelled from the spec (the worker
pool `workerPoolDo` lives outside the subject file): the pool returns two
order-aligned sequences, output index `i` corresponding to input request
`i` regardless of completion order; so the outcome list is the pointwise
application of the per-request network outcome to the built requests. -/
def fetchOutcomes (outcome : String → Except Unit BiliResponse)
    (uids : List String) : List (Except Unit BiliResponse) :=
  (builtRequests uids).map outcome

/-- Lines 401-446: the response loop. The code walks `responses` by index
`i` and reads `uids[i]`, so each outcome is paired with the uid at the
*same position in the original `uids` slice* (not in the built-request
slice); the pairs processed are `(uids.take results.length).zip results`.
Per pair: a per-item error or a non-zero `Code` counts one failure and
contributes no videos; a zero-code response contributes its `Vlist` mapped
through `toVideo uids[i]`, in request order. Returns (videos, failed). -/
def processResponses : List (String × Except Unit BiliResponse) → List BVideo × Nat
  | [] => ([], 0)
  | (_, .error _) :: rest =>
      let r := processResponses rest
      (r.1, r.2 + 1)
  | (uid, .ok resp) :: rest =>
      let r := processResponses rest
      if resp.code ≠ 0 then (r.1, r.2 + 1)
      else (resp.vlist.map (toVideo uid) ++ r.1, r.2)

/-- The aggregate error vocabulary of the fetch: `errNoContent` and
`errPartialContent` (the latter carrying the failure count, line 460). -/
inductive FetchError where
  | noContent
  | partialContent (failed : Nat)
  deriving DecidableEq

/-- The (videos, failed) pair accumulated by the response loop of
`fetchBilibiliUserVideos` for a given uid list. -/
def fetchProcessed (outcome : String → Except Unit BiliResponse)
    (uids : List String) : List BVideo × Nat :=
  processResponses
    ((uids.take (fetchOutcomes outcome uids).length).zip (fetchOutcomes outcome uids))

/-- Lines 349-467, `fetchBilibiliUserVideos`. `poolErr` models the
pool-level failure of `workerPoolDo` (line 392-396), which aborts the call
with an error wrapping `errNoContent`; otherwise the per-request outcomes
are processed, `errNoContent` is returned when zero videos were obtained,
the videos are sorted, and `errPartialContent{failed}` is returned when at
least one source failed. -/
def fetchBilibiliUserVideos (outcome : String → Except Unit BiliResponse)
    (poolErr : Bool) (uids : List String) : List BVideo × Option FetchError :=
  if poolErr then ([], some .noContent)
  else
    let pr := fetchProcessed outcome uids
    if pr.1.length = 0 then ([], some .noContent)
    else if pr.2 > 0 then (sortByNewest pr.1, some (.partialContent pr.2))
    else (sortByNewest pr.1, none)

/-- One entry of the widget's per-UP cache: the cached videos and the
expiry timestamp (`expireAt`). -/
structure CacheEntry where
  videos : List BVideo
  expireAt : Int
  deriving DecidableEq

/-- The `cachedVideos` map, read only through `lookupCache`. -/
abbrev Cache := List (String × CacheEntry)

/-- Go map read `widget.cachedVideos[uid]` (with the `exists` flag folded
into the `Option`). -/
def lookupCache : Cache → String → Option CacheEntry
  | [], _ => none
  | (k, e) :: rest, uid => if k = uid then some e else lookupCache rest uid

/-- Go map assignment `widget.cachedVideos[uid] = entry`: under
`lookupCache` the new binding shadows any earlier one, which is exactly the
Go map overwrite. -/
def insertCache (c : Cache) (uid : String) (e : CacheEntry) : Cache :=
  (uid, e) :: c

/-- One element of the `ups` list: the UP uid and its per-UP cache
duration override (`update-every`, 0 when absent). -/
structure UPConfig where
  uid : String
  cache : Int
  deriving DecidableEq

/-- Errors stored in the widget's `Error` field: the wrap of a fetch error
(line 208) or the no-video-data error set by `Render` (line 310). -/
inductive WidgetError where
  | fetchFailed (e : FetchError)
  | noVideoData
  deriving DecidableEq

/-- The mutable state of `bilibiliWidget` that `initialize`/`update`
read and write. -/
structure BilibiliWidget where
  videos : List BVideo
  style : String
  collapseAfter : Int
  collapseAfterRows : Int
  ups : List UPConfig
  updateInterval : Int
  limit : Int
  cachedVideos : Cache
  error : Option WidgetError
  deriving DecidableEq

/-- Lines 121-151, `bilibiliWidget.initialize`: allocate the empty cache
map, then default `Limit` to 25 when non-positive, `CollapseAfterRows` to 4
and `CollapseAfter` to 7 when 0 or below -1. -/
def initializeModel (w : BilibiliWidget) : BilibiliWidget :=
  { w with
    cachedVideos := ([] : Cache)
    limit := if w.limit ≤ 0 then 25 else w.limit
    collapseAfterRows :=
      if w.collapseAfterRows = 0 ∨ w.collapseAfterRows < -1 then 4
      else w.collapseAfterRows
    collapseAfter :=
      if w.collapseAfter = 0 ∨ w.collapseAfter < -1 then 7
      else w.collapseAfter }

/-- Two hours in nanoseconds, the hard-coded fallback cache duration of
line 226 (`2 * time.Hour`). -/
def twoHoursNs : Int := 7200000000000

/-- Lines 225-237: resolve the effective cache duration for one UP.
`dev` is `isDevelopment`; `upCache` is `up.Cache`, `interval` is
`widget.UpdateInterval`. -/
def effectiveCacheDuration (dev : Bool) (upCache interval : Int) : Int :=
  if !dev then
    let d : Int := twoHoursNs
    let d := if interval > 0 then interval else d
    if upCache > 0 then upCache else d
  else 0

/-- Staleness of one uid at check time `now` (lines 164-193): in
development mode every UP is refreshed; otherwise a uid is refreshed when
it has no cache entry or `now.After(entry.expireAt)` holds, i.e. `now` is
strictly after the expiry. -/
def isStale (dev : Bool) (cache : Cache) (now : Int) (uid : String) : Bool :=
  dev ||
    match lookupCache cache uid with
    | none => true
    | some e => decide (e.expireAt < now)

/-- The `needUpdate` slice built by lines 164-193, in `ups` order. -/
def staleUids (dev : Bool) (cache : Cache) (now : Int)
    (ups : List UPConfig) : List String :=
  (ups.filter fun up => isStale dev cache now up.uid).map fun up => up.uid

/-- The cached videos appended to `allVideos` by the same loop (line 190):
in development mode nothing is taken from the cache; otherwise every UP
whose entry exists and has not expired contributes its cached videos, in
`ups` order. -/
def cachedPart (dev : Bool) (cache : Cache) (now : Int)
    (ups : List UPConfig) : List BVideo :=
  if dev then []
  else
    (ups.map fun up =>
      match lookupCache cache up.uid with
      | none => []
      | some e => if e.expireAt < now then [] else e.videos).flatten

/-- Line 286-293, the `contains` helper. -/
def contains (slice : List String) (s : String) : Bool :=
  slice.any fun x => x == s

/-- Lines 220-263, the cache update loop: for each UP in `needUpdate` (in
`ups` order) resolve its cache duration, filter the freshly fetched videos
whose `AuthorUrl` ends in `"/" + up.UID`, overwrite the UP's cache entry
with them and expiry `now + duration`, and append them to `allVideos`.
Returns the updated cache and the appended videos, in order. -/
def refreshLoop (dev : Bool) (needUpdate : List String) (interval now : Int)
    (newVideos : List BVideo) : List UPConfig → Cache → Cache × List BVideo
  | [], cache => (cache, [])
  | up :: rest, cache =>
    if contains needUpdate up.uid then
      let dur := effectiveCacheDuration dev up.cache interval
      let upVideos := newVideos.filter fun v =>
        hasSuffix v.authorUrl ("/" ++ up.uid)
      let r := refreshLoop dev needUpdate interval now newVideos rest
        (insertCache cache up.uid ⟨upVideos, now + dur⟩)
      (r.1, upVideos ++ r.2)
    else refreshLoop dev needUpdate interval now newVideos rest cache

/-- Lines 268-276: sort `allVideos` by newest and truncate to `Limit`
when longer. -/
def truncateToLimit (limit : Int) (l : List BVideo) : List BVideo :=
  if (l.length : Int) > limit then l.take limit.toNat else l

/-- Lines 153-283, `bilibiliWidget.update`. `dev` is `isDevelopment`,
`outcome`/`poolErr` parametrise the network as in
`fetchBilibiliUserVideos`, `now` is `time.Now()` at line 160. On a fetch
error (any non-nil error, line 203) the pass stores the wrapped error and
returns early, leaving `Videos` and the cache untouched; otherwise the
cache entries of the stale UPs are overwritten and `Videos` becomes the
sorted, truncated merge of cached and fresh videos. -/
def updateModel (dev : Bool) (outcome : String → Except Unit BiliResponse)
    (poolErr : Bool) (now : Int) (w : BilibiliWidget) : BilibiliWidget :=
  let needUpdate := staleUids dev w.cachedVideos now w.ups
  let allVideos := cachedPart dev w.cachedVideos now w.ups
  if needUpdate.length > 0 then
    match fetchBilibiliUserVideos outcome poolErr needUpdate with
    | (_, some e) => { w with error := some (.fetchFailed e) }
    | (newVideos, none) =>
      let r := refreshLoop dev needUpdate w.updateInterval now newVideos
        w.ups w.cachedVideos
      { w with
        videos := truncateToLimit w.limit (sortByNewest (allVideos ++ r.2))
        cachedVideos := r.1 }
  else
    { w with videos := truncateToLimit w.limit (sortByNewest allVideos) }

/-- The merge input of one aggregation pass: the `allVideos` list the pass
hands to `sortByNewest` (cached part plus, when a fetch happened and
succeeded, the per-UP fresh contributions). When the fetch fails the pass
aborts before merging and only the cached part is listed. -/
def mergeInput (dev : Bool) (outcome : String → Except Unit BiliResponse)
    (poolErr : Bool) (now : Int) (w : BilibiliWidget) : List BVideo :=
  let needUpdate := staleUids dev w.cachedVideos now w.ups
  let base := cachedPart dev w.cachedVideos now w.ups
  if needUpdate.length > 0 then
    match fetchBilibiliUserVideos outcome poolErr needUpdate with
    | (_, some _) => base
    | (newVideos, none) =>
      base ++ (refreshLoop dev needUpdate w.updateInterval now newVideos
        w.ups w.cachedVideos).2
  else base

/-- Lines 60-92, `delayedHTTPClient.Do`, in discrete time: given the
recorded `lastReq` and the wall-clock time `now` at which the call starts,
the request is issued at `lastReq + delay` when less than `delay` has
elapsed (the `time.Sleep` at line 73), and at `now` otherwise; line 76
records this issue time as the new `lastReq` before handing the request to
the transport. The function returns the issue time, which is also the new
`lastReq`. -/
def delayedDo (delay lastReq now : Int) : Int :=
  if now - lastReq < delay then lastReq + delay else now

/-- Issue times of a back-to-back sequence of `Do` calls with arrival
times `arrivals`, threading the recorded `lastReq` through the calls. -/
def issueTimes (delay : Int) (lastReq : Int) : List Int → List Int
  | [] => []
  | now :: rest =>
    let t := delayedDo delay lastReq now
    t :: issueTimes delay t rest

/-! Concrete scenarios used by counterexamples and witnesses. -/

/-- A widget with two UPs, a fresh (empty) cache, and default thresholds,
as after `initialize` with `limit: 25`. -/
def wTwoUps : BilibiliWidget :=
  { videos := [], style := "", collapseAfter := 7, collapseAfterRows := 4,
    ups := [⟨"1", 0⟩, ⟨"2", 0⟩], updateInterval := 0, limit := 25,
    cachedVideos := [], error := none }

/-- Network outcome where uid "1" fails transport/decode and every other
uid succeeds with one video. -/
def oPartial : String → Except Unit BiliResponse := fun u =>
  if u = "1" then .error ()
  else .ok ⟨0, "", [⟨"t", "a", 1, "bv", "p", 100⟩]⟩

/-- Network outcome where every request fails. -/
def oAllFail : String → Except Unit BiliResponse := fun _ => .error ()

/-- Network outcome where every request succeeds with one video. -/
def oAttr : String → Except Unit BiliResponse := fun _ =>
  .ok ⟨0, "", [⟨"t", "auth", 1, "bv1", "p", 7⟩]⟩

/-- Network outcome where uid "1" fails and every other uid succeeds with
an empty video list. -/
def oEmptySuccess : String → Except Unit BiliResponse := fun u =>
  if u = "1" then .error () else .ok ⟨0, "", []⟩

/-- Network outcome where uid "1" succeeds with one video and every other
uid succeeds with two. -/
def oSuccess : String → Except Unit BiliResponse := fun u =>
  if u = "1" then .ok ⟨0, "", [⟨"t1", "a1", 1, "bv1", "p1", 100⟩]⟩
  else .ok ⟨0, "", [⟨"t2", "a2", 2, "bv2", "p2", 200⟩, ⟨"t3", "a3", 3, "bv3", "p3", 50⟩]⟩

/-- A cached video attributed to uid "1". -/
def vCached : BVideo :=
  ⟨"p0", "t0", "u0", "a0", "https://space.bilibili.com/1", 42⟩

/-- `wTwoUps` with a valid (unexpired at `now = 0`) cache entry for
uid "1". -/
def wWithCache : BilibiliWidget :=
  { wTwoUps with cachedVideos := [("1", ⟨[vCached], 10⟩)] }

/-- Modelled from the spec's words, for comparison with the code's
`isStale` (claim C2): a source is stale when force-all is on, or no entry
exists, or `now` is *at or after* the entry's expiry. -/
def staleSpecAtOrAfter (dev : Bool) (cache : Cache) (now : Int)
    (uid : String) : Bool :=
  dev ||
    match lookupCache cache uid with
    | none => true
    | some e => decide (e.expireAt ≤ now)

/-- `wTwoUps` with the same UP listed twice. -/
def wDupUps : BilibiliWidget :=
  { wTwoUps with ups := [⟨"1", 0⟩, ⟨"1", 0⟩] }

/-- `wTwoUps` with UP uids "5" and "1/5": the author URL of a video of
"1/5" also ends in "/5". -/
def wSlashUps : BilibiliWidget :=
  { wTwoUps with ups := [⟨"5", 0⟩, ⟨"1/5", 0⟩] }

/-! Helper lemmas and claim theorems. -/

/-- Closed form of the cache duration resolution of lines 225-237. -/
theorem effectiveCacheDuration_eq (dev : Bool) (upCache interval : Int) :
    effectiveCacheDuration dev upCache interval =
      if dev then 0
      else if 0 < upCache then upCache
      else if 0 < interval then interval
      else twoHoursNs := by
  cases dev <;> simp [effectiveCacheDuration]

/-- Claim C6: for every refreshed source the effective cache duration is
the per-source override when positive, otherwise the aggregator-level
default when positive, otherwise the hard-coded 2-hour fallback; and in
development (always-refresh) mode it is zero regardless of
configuration. -/
theorem effectiveCacheDuration_resolution (dev : Bool) (upCache interval : Int) :
    effectiveCacheDuration dev upCache interval =
      if dev then 0
      else if 0 < upCache then upCache
      else if 0 < interval then interval
      else twoHoursNs :=
  effectiveCacheDuration_eq dev upCache interval

/-- Claim C9: after `initialize`, the item limit is positive (a configured
limit at most 0 becomes 25), `CollapseAfterRows` becomes 4 and
`CollapseAfter` becomes 7 exactly when the configured value is 0 or below
-1, and the per-source cache map is the empty map. -/
theorem initializeModel_defaults (w : BilibiliWidget) :
    0 < (initializeModel w).limit ∧
    (initializeModel w).limit = (if w.limit ≤ 0 then 25 else w.limit) ∧
    (initializeModel w).collapseAfterRows =
      (if w.collapseAfterRows = 0 ∨ w.collapseAfterRows < -1 then 4
       else w.collapseAfterRows) ∧
    (initializeModel w).collapseAfter =
      (if w.collapseAfter = 0 ∨ w.collapseAfter < -1 then 7
       else w.collapseAfter) ∧
    (initializeModel w).cachedVideos = ([] : Cache) := by
  unfold initializeModel
  refine ⟨?_, rfl, rfl, rfl, rfl⟩
  simp only
  split <;> omega

/-- One `Do` call that starts at wall-clock time `now` with recorded
timestamp `lastReq` issues its request no earlier than `lastReq + delay`;
the issue time is what gets recorded as the new `lastReq`. -/
theorem delayedDo_lower_bound (delay lastReq now : Int) :
    lastReq + delay ≤ delayedDo delay lastReq now := by
  unfold delayedDo
  split <;> omega

/-- Claim C8: for any back-to-back sequence of calls through the delayed
client, consecutive issue times are at least `delay` apart, the recorded
`lastReq` after each call being that call's issue time. -/
theorem issueTimes_spacing (delay lastReq : Int) (arrivals : List Int) :
    (issueTimes delay lastReq arrivals).Chain' fun a b => a + delay ≤ b := by
  induction arrivals generalizing lastReq with
  | nil => exact List.chain'_nil
  | cons now rest ih =>
    rw [issueTimes]
    rcases rest with _ | ⟨now', rest'⟩
    · simp [issueTimes]
    · refine List.Chain'.cons ?_ (ih _)
      exact delayedDo_lower_bound delay _ now'

/-- Claim C2, counterexample: at a check time exactly equal to the entry's
expiry the code (`now.After(expireAt)`, strict) classifies the source as
fresh, while the claim's "at or after" classification calls it stale. -/
theorem isStale_at_expiry_counterexample :
    isStale false [("a", ⟨[], 5⟩)] 5 "a" = false ∧
    staleSpecAtOrAfter false [("a", ⟨[], 5⟩)] 5 "a" = true := by
  decide

/-- Claim C2 as amended: a source is stale iff force-all (development)
mode is on, or no cache entry exists, or `now` is strictly after the
entry's expiry; and a source whose effective TTL is zero is nevertheless
stale on the next check, because a zero TTL occurs only in development
mode, where every source is forced stale. -/
theorem isStale_characterization (dev : Bool) (cache : Cache) (now : Int)
    (uid : String) :
    (isStale dev cache now uid = true ↔
      dev = true ∨ lookupCache cache uid = none ∨
        ∃ e, lookupCache cache uid = some e ∧ e.expireAt < now) ∧
    (∀ upCache interval, effectiveCacheDuration dev upCache interval = 0 →
      isStale dev cache now uid = true) := by
  constructor
  · unfold isStale
    cases dev
    · simp only [Bool.false_or]
      cases h : lookupCache cache uid with
      | none => simp
      | some e => simp [h, decide_eq_true_iff]
    · simp
  · intro upCache interval hz
    have hdev : dev = true := by
      cases dev
      · exfalso
        rw [effectiveCacheDuration_eq] at hz
        have h2 : twoHoursNs = 7200000000000 := rfl
        simp only [if_neg (by simp : ¬(false = true))] at hz
        split_ifs at hz <;> omega
      · rfl
    subst hdev
    simp [isStale]

/-- Claim C2, witness for the amended theorem. -/
theorem isStale_characterization_witness : isStale true [] 0 "a" = true :=
  (isStale_characterization true [] 0 "a").2 0 0 rfl

/-- Claim C10: `update` assigns `Error` only on fetch failure and never
resets it to `nil`, so once set it persists across later (also successful)
passes: if an update pass ends with no error then there was none before,
and every pass either leaves the field unchanged or stores a fetch
failure. -/
theorem updateModel_error_persists (dev : Bool)
    (outcome : String → Except Unit BiliResponse) (poolErr : Bool)
    (now : Int) (w : BilibiliWidget) :
    ((updateModel dev outcome poolErr now w).error = none → w.error = none) ∧
    ((updateModel dev outcome poolErr now w).error = w.error ∨
      ∃ e, (updateModel dev outcome poolErr now w).error =
        some (.fetchFailed e)) := by
  rcases hF : fetchBilibiliUserVideos outcome poolErr
    (staleUids dev w.cachedVideos now w.ups) with ⟨nv, err⟩
  unfold updateModel
  dsimp only
  by_cases hlen : (staleUids dev w.cachedVideos now w.ups).length > 0
  · rw [if_pos hlen, hF]
    cases err with
    | none => exact ⟨fun h => h, Or.inl rfl⟩
    | some e =>
      refine ⟨fun h => ?_, Or.inr ⟨e, rfl⟩⟩
      simp at h
  · rw [if_neg hlen]
    exact ⟨fun h => h, Or.inl rfl⟩

/-- Claim C10, witness: a pass that ends without error started without
one. -/
theorem updateModel_error_persists_witness : wTwoUps.error = none :=
  (updateModel_error_persists false oSuccess false 0 wTwoUps).1 (by decide)

/-- Claim C1 fails on the code: with 2 sources of which exactly 1 fails,
`fetchBilibiliUserVideos` returns the partial-content error together with
the successfully fetched videos, but `update` treats the non-nil error as
fatal (line 203-210): it stores the error and returns early, so the
successful source's cache entry is never written and its fresh videos
never reach the merged result. -/
theorem update_partial_failure_is_fatal :
    (fetchBilibiliUserVideos oPartial false ["1", "2"]).2 =
      some (.partialContent 1) ∧
    (fetchBilibiliUserVideos oPartial false ["1", "2"]).1 ≠ [] ∧
    staleUids false wTwoUps.cachedVideos 0 wTwoUps.ups = ["1", "2"] ∧
    (updateModel false oPartial false 0 wTwoUps).cachedVideos =
      wTwoUps.cachedVideos ∧
    (updateModel false oPartial false 0 wTwoUps).videos = [] ∧
    (updateModel false oPartial false 0 wTwoUps).error =
      some (.fetchFailed (.partialContent 1)) := by
  decide

/-- Claim C3, counterexample: for the uid list `["\x00a", "2"]` (the first
uid contains a control character, so its `http.NewRequest` fails and the
request is skipped) the fetch produces one outcome for two requested
source IDs, and the single fetched video — which came from source "2" —
is attributed to `uids[0] = "\x00a"`. -/
theorem fetch_outcome_misattribution :
    (["\x00a", "2"] : List String).length = 2 ∧
    (fetchOutcomes oAttr ["\x00a", "2"]).length = 1 ∧
    (fetchBilibiliUserVideos oAttr false ["\x00a", "2"]).2 = none ∧
    (fetchBilibiliUserVideos oAttr false ["\x00a", "2"]).1.map
      (fun v => v.authorUrl) = ["https://space.bilibili.com/\x00a"] := by
  decide

/-- Claim C3 as amended: provided every requested source ID yields a
buildable request (no control characters for `http.NewRequest`),
`fetchBilibiliUserVideos` produces exactly one outcome per requested
SourceID, in request order, and the response loop pairs the i-th outcome
with the i-th source ID; a source ID whose request cannot be built is
silently dropped and shifts the attribution of later outcomes. -/
theorem fetch_outcomes_aligned (outcome : String → Except Unit BiliResponse)
    (uids : List String) (h : ∀ u ∈ uids, newRequestOK u = true) :
    fetchOutcomes outcome uids = uids.map outcome ∧
    (fetchOutcomes outcome uids).length = uids.length ∧
    (uids.take (fetchOutcomes outcome uids).length).zip
      (fetchOutcomes outcome uids) = uids.zip (uids.map outcome) := by
  have hf : builtRequests uids = uids := List.filter_eq_self.mpr h
  refine ⟨?_, ?_, ?_⟩
  · simp [fetchOutcomes, hf]
  · simp [fetchOutcomes, hf]
  · simp [fetchOutcomes, hf, List.take_length]

/-- Claim C3, witness for the amended theorem. -/
theorem fetch_outcomes_aligned_witness :
    fetchOutcomes oAttr ["1", "2"] = (["1", "2"] : List String).map oAttr ∧
    (fetchOutcomes oAttr ["1", "2"]).length =
      (["1", "2"] : List String).length ∧
    ((["1", "2"] : List String).take (fetchOutcomes oAttr ["1", "2"]).length).zip
      (fetchOutcomes oAttr ["1", "2"]) =
      (["1", "2"] : List String).zip ((["1", "2"] : List String).map oAttr) :=
  fetch_outcomes_aligned oAttr ["1", "2"] (by decide)

/-- Claim C4, counterexample: with 2 sources where source "1" fails and
source "2" succeeds with an empty video list, some but not all sources
failed (1 counted failure out of 2 sources), yet the fetch returns the
no-content error, not the partial-content one (zero items obtained takes
precedence). -/
theorem fetch_noContent_precedence_counterexample :
    (["1", "2"] : List String).length = 2 ∧
    (fetchProcessed oEmptySuccess ["1", "2"]).2 = 1 ∧
    (fetchBilibiliUserVideos oEmptySuccess false ["1", "2"]).2 =
      some .noContent := by
  decide

/-- Claim C4 as amended: the fetch returns the no-content error exactly
when zero items were obtained (also on a pool-level failure); it returns
the partial-content error carrying the failure count exactly when at least
one item was obtained and some counted source failed (zero items takes
precedence even when only some sources failed); it returns nil exactly
when at least one item was obtained and no counted source failed; and a
pass whose fetch errors — in particular one where all sources fail —
overwrites no cache entry. -/
theorem fetch_error_classification (outcome : String → Except Unit BiliResponse)
    (poolErr : Bool) (uids : List String) (dev : Bool) (now : Int)
    (w : BilibiliWidget) :
    ((fetchBilibiliUserVideos outcome poolErr uids).2 = some .noContent ↔
      poolErr = true ∨ (fetchProcessed outcome uids).1 = []) ∧
    (∀ k, (fetchBilibiliUserVideos outcome poolErr uids).2 =
        some (.partialContent k) ↔
      poolErr = false ∧ (fetchProcessed outcome uids).1 ≠ [] ∧
        (fetchProcessed outcome uids).2 = k ∧ 0 < k) ∧
    ((fetchBilibiliUserVideos outcome poolErr uids).2 = none ↔
      poolErr = false ∧ (fetchProcessed outcome uids).1 ≠ [] ∧
        (fetchProcessed outcome uids).2 = 0) ∧
    (∀ e, (fetchBilibiliUserVideos outcome poolErr
        (staleUids dev w.cachedVideos now w.ups)).2 = some e →
      (updateModel dev outcome poolErr now w).cachedVideos =
        w.cachedVideos) := by
  have hfetch : (fetchBilibiliUserVideos outcome poolErr uids).2 =
      if poolErr then some .noContent
      else if (fetchProcessed outcome uids).1.length = 0 then some .noContent
      else if (fetchProcessed outcome uids).2 > 0 then
        some (.partialContent (fetchProcessed outcome uids).2)
      else none := by
    unfold fetchBilibiliUserVideos
    split
    · rfl
    · dsimp only
      split
      · rfl
      · split <;> rfl
  refine ⟨?_, ?_, ?_, ?_⟩
  · rw [hfetch]
    split_ifs <;> simp_all [List.length_eq_zero]
  · intro k
    rw [hfetch]
    split_ifs <;> simp_all [List.length_eq_zero] <;> omega
  · rw [hfetch]
    split_ifs <;> simp_all [List.length_eq_zero] <;> omega
  · intro e hF
    rcases hP : fetchBilibiliUserVideos outcome poolErr
      (staleUids dev w.cachedVideos now w.ups) with ⟨nv, err⟩
    rw [hP] at hF
    simp only at hF
    subst hF
    unfold updateModel
    dsimp only
    by_cases hlen : (staleUids dev w.cachedVideos now w.ups).length > 0
    · rw [if_pos hlen, hP]
    · rw [if_neg hlen]

/-- Claim C4, witness for the amended theorem: after a pass in which every
source fails, the cache is unchanged. -/
theorem fetch_error_classification_witness :
    (updateModel false oAllFail false 0 wTwoUps).cachedVideos =
      wTwoUps.cachedVideos :=
  (fetch_error_classification oAllFail false [] false 0 wTwoUps).2.2.2
    .noContent (by decide)

/-- `contains` decides list membership. -/
theorem contains_iff (l : List String) (s : String) :
    contains l s = true ↔ s ∈ l := by
  simp [contains, List.any_eq_true, beq_iff_eq]

/-- Membership in the `needUpdate` slice is staleness of the uid for some
configured UP. -/
theorem mem_staleUids {dev : Bool} {cache : Cache} {now : Int}
    {ups : List UPConfig} {uid : String} :
    uid ∈ staleUids dev cache now ups ↔
      ∃ up ∈ ups, up.uid = uid ∧ isStale dev cache now uid = true := by
  simp only [staleUids, List.mem_map, List.mem_filter]
  constructor
  · rintro ⟨up, ⟨hup, hst⟩, rfl⟩
    exact ⟨up, hup, rfl, hst⟩
  · rintro ⟨up, hup, rfl, hst⟩
    exact ⟨up, ⟨hup, hst⟩, rfl⟩

/-- The refresh loop does not touch the cache entry of a uid outside
`needUpdate`. -/
theorem lookupCache_refreshLoop (dev : Bool) (needUpdate : List String)
    (interval now : Int) (nv : List BVideo) (ups : List UPConfig)
    (cache : Cache) (uid : String) (h : uid ∉ needUpdate) :
    lookupCache
      (refreshLoop dev needUpdate interval now nv ups cache).1 uid =
    lookupCache cache uid := by
  induction ups generalizing cache with
  | nil => rfl
  | cons up rest ih =>
    by_cases hc : contains needUpdate up.uid
    · have hne : up.uid ≠ uid := by
        intro he
        exact h (he ▸ (contains_iff needUpdate up.uid).mp hc)
      rw [refreshLoop, if_pos hc]
      dsimp only
      rw [ih]
      simp [insertCache, lookupCache, hne]
    · rw [refreshLoop, if_neg hc]
      exact ih cache

/-- The `.2` component of the refresh loop: the fresh videos appended to
`allVideos`, as the concatenation over the UPs selected by `needUpdate`
of the author-URL-suffix filter of the fetched videos. -/
theorem refreshLoop_snd (dev : Bool) (needUpdate : List String)
    (interval now : Int) (nv : List BVideo) (ups : List UPConfig)
    (cache : Cache) :
    (refreshLoop dev needUpdate interval now nv ups cache).2 =
      ((ups.filter fun up => contains needUpdate up.uid).map fun up =>
        nv.filter fun v => hasSuffix v.authorUrl ("/" ++ up.uid)).flatten := by
  induction ups generalizing cache with
  | nil => rfl
  | cons up rest ih =>
    by_cases hc : contains needUpdate up.uid
    · rw [refreshLoop, if_pos hc]
      dsimp only
      rw [ih]
      simp [List.filter_cons, hc]
    · rw [refreshLoop, if_neg hc]
      rw [ih]
      simp [List.filter_cons, hc]

/-- Claim C7: a source that is not stale at an aggregation pass keeps its
cache entry (items and expiry) untouched by the pass, and its cached
items appear unchanged (as a contiguous sublist) in the pass's merge
input. -/
theorem nonstale_source_untouched (dev : Bool)
    (outcome : String → Except Unit BiliResponse) (poolErr : Bool)
    (now : Int) (w : BilibiliWidget) (up : UPConfig) (hup : up ∈ w.ups)
    (hst : isStale dev w.cachedVideos now up.uid = false) :
    lookupCache (updateModel dev outcome poolErr now w).cachedVideos up.uid =
      lookupCache w.cachedVideos up.uid ∧
    ∃ e, lookupCache w.cachedVideos up.uid = some e ∧
      e.videos.Sublist (mergeInput dev outcome poolErr now w) := by
  have hdev : dev = false := by
    cases dev
    · rfl
    · simp [isStale] at hst
  subst hdev
  have hnotmem : up.uid ∉ staleUids false w.cachedVideos now w.ups := by
    intro hmem
    rcases mem_staleUids.mp hmem with ⟨up', _, _, hst'⟩
    rw [hst] at hst'
    exact Bool.false_ne_true hst'
  obtain ⟨e, he, hexp⟩ :
      ∃ e, lookupCache w.cachedVideos up.uid = some e ∧
        ¬ e.expireAt < now := by
    unfold isStale at hst
    rcases hL : lookupCache w.cachedVideos up.uid with _ | e
    · rw [hL] at hst; simp at hst
    · rw [hL] at hst
      simp only [Bool.false_or] at hst
      exact ⟨e, rfl, by simpa using hst⟩
  have hbase : e.videos.Sublist
      (cachedPart false w.cachedVideos now w.ups) := by
    have hchunk : e.videos ∈ w.ups.map fun up' =>
        match lookupCache w.cachedVideos up'.uid with
        | none => []
        | some e' => if e'.expireAt < now then [] else e'.videos := by
      refine List.mem_map.mpr ⟨up, hup, ?_⟩
      rw [he]
      simp [hexp]
    simpa [cachedPart] using List.sublist_flatten_of_mem hchunk
  constructor
  · unfold updateModel
    dsimp only
    by_cases hlen : (staleUids false w.cachedVideos now w.ups).length > 0
    · rw [if_pos hlen]
      rcases hF : fetchBilibiliUserVideos outcome poolErr
        (staleUids false w.cachedVideos now w.ups) with ⟨nv, err⟩
      cases err
      · exact lookupCache_refreshLoop false _ w.updateInterval now nv w.ups
          w.cachedVideos up.uid hnotmem
      · rfl
    · rw [if_neg hlen]
  · refine ⟨e, he, ?_⟩
    unfold mergeInput
    dsimp only
    by_cases hlen : (staleUids false w.cachedVideos now w.ups).length > 0
    · rw [if_pos hlen]
      rcases hF : fetchBilibiliUserVideos outcome poolErr
        (staleUids false w.cachedVideos now w.ups) with ⟨nv, err⟩
      cases err
      · exact hbase.trans (List.sublist_append_left _ _)
      · exact hbase
    · rw [if_neg hlen]
      exact hbase

/-- Claim C7, witness: uid "1" has a valid cache entry at `now = 0`, uid
"2" is stale and gets fetched; the pass leaves "1"'s entry untouched and
its cached video in the merge input. -/
theorem nonstale_source_untouched_witness :
    lookupCache (updateModel false oAttr false 0 wWithCache).cachedVideos
      "1" = lookupCache wWithCache.cachedVideos "1" ∧
    ∃ e, lookupCache wWithCache.cachedVideos "1" = some e ∧
      e.videos.Sublist (mergeInput false oAttr false 0 wWithCache) :=
  nonstale_source_untouched false oAttr false 0 wWithCache ⟨"1", 0⟩
    (by decide) (by decide)

/-- If a slash-separated suffix matches inside a list ending in a
slash-free segment, the matched tail is that segment: the suffix join key
"/" + uid is unambiguous as long as uids contain no slash. -/
theorem suffix_sep {b u u' : List Char} (hu : '/' ∉ u) (hu' : '/' ∉ u')
    (h : ('/' :: u') <:+ (b ++ '/' :: u)) : u' = u := by
  have h2 : ('/' :: u) <:+ (b ++ '/' :: u) := List.suffix_append b _
  rcases List.suffix_or_suffix_of_suffix h h2 with hs | hs
  · obtain ⟨t, ht⟩ := hs
    cases t with
    | nil =>
      simp only [List.nil_append, List.cons.injEq, true_and] at ht
      exact ht
    | cons c t' =>
      rw [List.cons_append] at ht
      injection ht with h0 h1
      exact absurd (h1 ▸ List.mem_append_right t' (List.mem_cons_self _ _)) hu
  · obtain ⟨t, ht⟩ := hs
    cases t with
    | nil =>
      simp only [List.nil_append, List.cons.injEq, true_and] at ht
      exact ht.symm
    | cons c t' =>
      rw [List.cons_append] at ht
      injection ht with h0 h1
      exact absurd (h1 ▸ List.mem_append_right t' (List.mem_cons_self _ _)) hu'

/-- For slash-free uids the author-URL suffix test of line 242 recognises
exactly the tagging uid of line 442. -/
theorem hasSuffix_tag (u u' : String) (hu : '/' ∉ u.data)
    (hu' : '/' ∉ u'.data) :
    (hasSuffix ("https://space.bilibili.com/" ++ u) ("/" ++ u') = true) ↔
      u' = u := by
  unfold hasSuffix
  rw [decide_eq_true_iff]
  have hsplit : ("https://space.bilibili.com/" ++ u).data =
      "https://space.bilibili.com".data ++ '/' :: u.data := by
    rw [String.data_append]
    have : ("https://space.bilibili.com/" : String).data =
        "https://space.bilibili.com".data ++ ['/'] := by decide
    rw [this, List.append_assoc, List.singleton_append]
  have hpre : (("/" : String) ++ u').data = '/' :: u'.data := by
    rw [String.data_append]
    rfl
  rw [hsplit, hpre]
  constructor
  · intro h
    exact String.ext (suffix_sep hu hu' h)
  · rintro rfl
    exact List.suffix_append _ _

/-- Sum of a pointwise addition of two maps. -/
theorem sum_map_add_nat {α : Type} (f g : α → Nat) (l : List α) :
    (l.map fun a => f a + g a).sum = (l.map f).sum + (l.map g).sum := by
  induction l with
  | nil => rfl
  | cons a l ih =>
    simp only [List.map_cons, List.sum_cons, ih]
    omega

/-- Sum of an indicator map is a `countP`. -/
theorem sum_map_indicator {α : Type} (p : α → Bool) (l : List α) :
    (l.map fun a => if p a then 1 else 0).sum = l.countP p := by
  induction l with
  | nil => rfl
  | cons a l ih =>
    simp only [List.map_cons, List.sum_cons, List.countP_cons, ih]
    omega

/-- On a duplicate-free key list, a predicate that recognises exactly one
present key counts to one. -/
theorem countP_eq_one_of_nodup {keys : List String} (hnd : keys.Nodup)
    {a : String} (hm : a ∈ keys) (p : String → Bool)
    (hp : ∀ k ∈ keys, (p k = true ↔ k = a)) : keys.countP p = 1 := by
  induction keys with
  | nil => cases hm
  | cons k ks ih =>
    rw [List.countP_cons]
    rcases List.nodup_cons.mp hnd with ⟨hk, hnd'⟩
    by_cases hka : k = a
    · subst hka
      have h0 : ks.countP p = 0 := by
        refine List.countP_eq_zero.mpr fun x hx hpx => ?_
        exact hk ((hp x (List.mem_cons_of_mem k hx)).mp hpx ▸ hx)
      have hpk : p k = true := (hp k (List.mem_cons_self k ks)).mpr rfl
      simp [h0, hpk]
    · have ha : a ∈ ks := by
        rcases List.mem_cons.mp hm with h | h
        · exact absurd h.symm hka
        · exact h
      have hpk : ¬ p k = true := fun hpx =>
        hka ((hp k (List.mem_cons_self k ks)).mp hpx)
      rw [ih hnd' ha fun x hx => hp x (List.mem_cons_of_mem k hx)]
      simp [hpk]

/-- Partition count: if every video carries the author-URL tag of some key
and keys are duplicate-free and slash-free, the per-key suffix filters
partition the video list, so their lengths sum to the total. -/
theorem sum_filter_tagged (keys : List String) (hnd : keys.Nodup)
    (hsf : ∀ k ∈ keys, '/' ∉ k.data) (nv : List BVideo)
    (hmem : ∀ v ∈ nv, ∃ u, u ∈ keys ∧ '/' ∉ u.data ∧
      v.authorUrl = "https://space.bilibili.com/" ++ u) :
    (keys.map fun k =>
      (nv.filter fun v => hasSuffix v.authorUrl ("/" ++ k)).length).sum
      = nv.length := by
  induction nv with
  | nil => simp
  | cons v nv ih =>
    obtain ⟨u, hu, husf, hurl⟩ := hmem v (List.mem_cons_self v nv)
    have hfilter : ∀ k,
        (List.filter (fun v' => hasSuffix v'.authorUrl ("/" ++ k))
          (v :: nv)).length
        = (if hasSuffix v.authorUrl ("/" ++ k) then 1 else 0)
          + (List.filter (fun v' => hasSuffix v'.authorUrl ("/" ++ k))
              nv).length := by
      intro k
      rw [List.filter_cons]
      split
      · rw [List.length_cons]
        omega
      · omega
    rw [List.map_congr_left fun k _ => hfilter k, sum_map_add_nat,
      ih fun v' hv' => hmem v' (List.mem_cons_of_mem v hv'),
      sum_map_indicator]
    have hcount : keys.countP
        (fun k => hasSuffix v.authorUrl ("/" ++ k)) = 1 := by
      refine countP_eq_one_of_nodup hnd hu _ fun k hk => ?_
      rw [hurl]
      exact hasSuffix_tag u k husf (hsf k hk)
    rw [hcount, List.length_cons]
    omega

/-- Every video produced by the response loop carries the author-URL tag
of the uid of some processed pair. -/
theorem processResponses_tagged
    {pairs : List (String × Except Unit BiliResponse)} {v : BVideo}
    (hv : v ∈ (processResponses pairs).1) :
    ∃ u, (∃ r, (u, r) ∈ pairs) ∧
      v.authorUrl = "https://space.bilibili.com/" ++ u := by
  induction pairs with
  | nil => cases hv
  | cons p rest ih =>
    rcases p with ⟨uid, res⟩
    cases res with
    | error err =>
      rw [processResponses] at hv
      obtain ⟨u, ⟨r, hr⟩, hurl⟩ := ih hv
      exact ⟨u, ⟨r, List.mem_cons_of_mem _ hr⟩, hurl⟩
    | ok resp =>
      rw [processResponses] at hv
      by_cases hc : resp.code ≠ 0
      · rw [if_pos hc] at hv
        obtain ⟨u, ⟨r, hr⟩, hurl⟩ := ih hv
        exact ⟨u, ⟨r, List.mem_cons_of_mem _ hr⟩, hurl⟩
      · rw [if_neg hc] at hv
        rcases List.mem_append.mp hv with hl | hr
        · obtain ⟨item, _, rfl⟩ := List.mem_map.mp hl
          exact ⟨uid, ⟨.ok resp, List.mem_cons_self _ _⟩, rfl⟩
        · obtain ⟨u, ⟨r, hr'⟩, hurl⟩ := ih hr
          exact ⟨u, ⟨r, List.mem_cons_of_mem _ hr'⟩, hurl⟩

/-- Every video returned by `fetchBilibiliUserVideos` carries the
author-URL tag of one of the requested uids. -/
theorem fetch_videos_tagged {outcome : String → Except Unit BiliResponse}
    {uids : List String} {v : BVideo}
    (hv : v ∈ (fetchBilibiliUserVideos outcome false uids).1) :
    ∃ u, u ∈ uids ∧
      v.authorUrl = "https://space.bilibili.com/" ++ u := by
  unfold fetchBilibiliUserVideos at hv
  rw [if_neg (by simp)] at hv
  dsimp only at hv
  have hv' : v ∈ (fetchProcessed outcome uids).1 := by
    by_cases h1 : (fetchProcessed outcome uids).1.length = 0
    · rw [if_pos h1] at hv
      cases hv
    · rw [if_neg h1] at hv
      by_cases h2 : (fetchProcessed outcome uids).2 > 0
      · rw [if_pos h2] at hv
        exact (List.mem_insertionSort videoGE).mp hv
      · rw [if_neg h2] at hv
        exact (List.mem_insertionSort videoGE).mp hv
  obtain ⟨u, ⟨r, hr⟩, hurl⟩ := processResponses_tagged hv'
  have hu : u ∈ uids :=
    (List.take_sublist _ _).subset (List.of_mem_zip hr).1
  exact ⟨u, hu, hurl⟩

/-- Under duplicate-free, slash-free UP uids, the fresh videos appended by
the refresh loop are exactly the fetched videos, counted once each: the
per-UP suffix filters partition the fetched list. -/
theorem refreshLoop_contrib_length (dev : Bool) (cache : Cache)
    (interval now : Int) (ups : List UPConfig) (nv : List BVideo)
    (hnd : (ups.map fun up => up.uid).Nodup)
    (hsf : ∀ up ∈ ups, '/' ∉ up.uid.data)
    (hmem : ∀ v ∈ nv, ∃ u, u ∈ staleUids dev cache now ups ∧
      v.authorUrl = "https://space.bilibili.com/" ++ u) :
    (refreshLoop dev (staleUids dev cache now ups) interval now nv
      ups cache).2.length = nv.length := by
  rw [refreshLoop_snd, List.length_flatten, List.map_map]
  have hkeys : ((ups.filter fun up =>
      contains (staleUids dev cache now ups) up.uid).map
        fun up => up.uid).Nodup :=
    List.Nodup.sublist (List.Sublist.map _ (List.filter_sublist ups)) hnd
  have hbridge : (((ups.filter fun up =>
      contains (staleUids dev cache now ups) up.uid).map
        fun up => up.uid).map fun k =>
      (nv.filter fun v => hasSuffix v.authorUrl ("/" ++ k)).length)
      = List.map (List.length ∘ fun up =>
          List.filter (fun v => hasSuffix v.authorUrl ("/" ++ up.uid)) nv)
        (ups.filter fun up =>
          contains (staleUids dev cache now ups) up.uid) := by
    rw [List.map_map]
    rfl
  rw [← hbridge]
  refine sum_filter_tagged _ hkeys ?_ nv ?_
  · intro k hk
    obtain ⟨up, hup, rfl⟩ := List.mem_map.mp hk
    exact hsf up (List.mem_filter.mp hup).1
  · intro v hv
    obtain ⟨u, hu, hurl⟩ := hmem v hv
    obtain ⟨up, hup, huid, _⟩ := mem_staleUids.mp hu
    refine ⟨u, List.mem_map.mpr ⟨up, List.mem_filter.mpr
      ⟨hup, (contains_iff _ _).mpr (huid ▸ hu)⟩, huid⟩, ?_, hurl⟩
    exact huid ▸ hsf up hup

/-- `sortByNewest` sorts by descending publish time. -/
theorem sortByNewest_sorted (l : List BVideo) :
    (sortByNewest l).Sorted videoGE :=
  List.sorted_insertionSort videoGE l

/-- `sortByNewest` permutes, hence preserves length. -/
theorem sortByNewest_length (l : List BVideo) :
    (sortByNewest l).length = l.length :=
  (List.perm_insertionSort videoGE l).length_eq

/-- The truncation of lines 270-276 yields `min limit length` elements. -/
theorem truncateToLimit_length {limit : Int} (hlim : 0 ≤ limit)
    (l : List BVideo) :
    (truncateToLimit limit l).length = min limit.toNat l.length := by
  unfold truncateToLimit
  split
  · rw [List.length_take]
  · rename_i h
    omega

/-- Truncation preserves sortedness. -/
theorem truncateToLimit_sorted {limit : Int} {l : List BVideo}
    (h : l.Sorted videoGE) : (truncateToLimit limit l).Sorted videoGE := by
  unfold truncateToLimit
  split
  · exact List.Pairwise.sublist (List.take_sublist _ _) h
  · exact h

/-- Claim C5 as amended: in an aggregation pass whose fetch (if any)
fully succeeds, provided the configured uids are pairwise distinct and
contain no slash (so the author-URL suffix join is unambiguous) and the
limit is non-negative (guaranteed by `initialize`), the widget's
resulting video list is sorted non-increasingly by publish time and has
length `min(limit, cached + fetched)`; the `min` applies once to the full
merge, i.e. truncation happens only after the merge and sort, never
per-source. -/
theorem update_merge_sorted_length (dev : Bool)
    (outcome : String → Except Unit BiliResponse) (now : Int)
    (w : BilibiliWidget)
    (hnd : (w.ups.map fun up => up.uid).Nodup)
    (hsf : ∀ up ∈ w.ups, '/' ∉ up.uid.data)
    (hlim : 0 ≤ w.limit) :
    (staleUids dev w.cachedVideos now w.ups ≠ [] →
      (fetchBilibiliUserVideos outcome false
          (staleUids dev w.cachedVideos now w.ups)).2 = none →
      ((updateModel dev outcome false now w).videos.Sorted videoGE ∧
       (updateModel dev outcome false now w).videos.length =
        min w.limit.toNat
          ((cachedPart dev w.cachedVideos now w.ups).length +
           (fetchBilibiliUserVideos outcome false
             (staleUids dev w.cachedVideos now w.ups)).1.length))) ∧
    (staleUids dev w.cachedVideos now w.ups = [] →
      ((updateModel dev outcome false now w).videos.Sorted videoGE ∧
       (updateModel dev outcome false now w).videos.length =
        min w.limit.toNat
          (cachedPart dev w.cachedVideos now w.ups).length)) := by
  constructor
  · intro hne herr
    have hlen : (staleUids dev w.cachedVideos now w.ups).length > 0 :=
      List.length_pos.mpr hne
    rcases hF : fetchBilibiliUserVideos outcome false
      (staleUids dev w.cachedVideos now w.ups) with ⟨nv, err⟩
    rw [hF] at herr
    simp only at herr
    subst herr
    have hmem : ∀ v ∈ nv, ∃ u,
        u ∈ staleUids dev w.cachedVideos now w.ups ∧
        v.authorUrl = "https://space.bilibili.com/" ++ u := by
      intro v hv
      have hv' : v ∈ (fetchBilibiliUserVideos outcome false
          (staleUids dev w.cachedVideos now w.ups)).1 := by
        rw [hF]; exact hv
      obtain ⟨u, hu, hurl⟩ := fetch_videos_tagged hv'
      exact ⟨u, hu, hurl⟩
    have hupd : (updateModel dev outcome false now w).videos =
        truncateToLimit w.limit (sortByNewest
          (cachedPart dev w.cachedVideos now w.ups ++
           (refreshLoop dev (staleUids dev w.cachedVideos now w.ups)
             w.updateInterval now nv w.ups w.cachedVideos).2)) := by
      unfold updateModel
      dsimp only
      rw [if_pos hlen, hF]
    rw [hupd]
    refine ⟨truncateToLimit_sorted (sortByNewest_sorted _), ?_⟩
    rw [truncateToLimit_length hlim, sortByNewest_length,
      List.length_append,
      refreshLoop_contrib_length dev w.cachedVideos w.updateInterval now
        w.ups nv hnd hsf hmem]
  · intro hnone
    have hlen : ¬ (staleUids dev w.cachedVideos now w.ups).length > 0 := by
      rw [hnone]
      simp
    have hupd : (updateModel dev outcome false now w).videos =
        truncateToLimit w.limit (sortByNewest
          (cachedPart dev w.cachedVideos now w.ups)) := by
      unfold updateModel
      dsimp only
      rw [if_neg hlen]
    rw [hupd]
    exact ⟨truncateToLimit_sorted (sortByNewest_sorted _),
      by rw [truncateToLimit_length hlim, sortByNewest_length]⟩

/-- Claim C5, witness: two stale UPs, both fetches succeed (3 videos in
total, empty cache), limit 25. -/
theorem update_merge_sorted_length_witness :
    (updateModel false oSuccess false 0 wTwoUps).videos.Sorted videoGE ∧
    (updateModel false oSuccess false 0 wTwoUps).videos.length =
      min wTwoUps.limit.toNat
        ((cachedPart false wTwoUps.cachedVideos 0 wTwoUps.ups).length +
         (fetchBilibiliUserVideos oSuccess false
           (staleUids false wTwoUps.cachedVideos 0 wTwoUps.ups)).1.length) :=
  (update_merge_sorted_length false oSuccess 0 wTwoUps (by decide)
    (by decide) (by decide)).1 (by decide) (by decide)

/-- Claim C5, counterexample: with every source succeeding, the merged
length can differ from `min(limit, cached + fetched)` when the
author-URL suffix join is ambiguous. Listing the same UP twice makes its
2 fetched videos enter the merge twice (length 4, not
`min(25, 0 + 2) = 2`); with uids "5" and "1/5" the video of "1/5" matches
both suffix filters (length 3, not 2). -/
theorem update_merge_length_counterexample :
    (fetchBilibiliUserVideos oAttr false
      (staleUids false wDupUps.cachedVideos 0 wDupUps.ups)).2 = none ∧
    (updateModel false oAttr false 0 wDupUps).videos.length = 4 ∧
    min wDupUps.limit.toNat
      ((cachedPart false wDupUps.cachedVideos 0 wDupUps.ups).length +
       (fetchBilibiliUserVideos oAttr false
         (staleUids false wDupUps.cachedVideos 0 wDupUps.ups)).1.length)
      = 2 ∧
    (fetchBilibiliUserVideos oAttr false
      (staleUids false wSlashUps.cachedVideos 0 wSlashUps.ups)).2 = none ∧
    (updateModel false oAttr false 0 wSlashUps).videos.length = 3 ∧
    min wSlashUps.limit.toNat
      ((cachedPart false wSlashUps.cachedVideos 0 wSlashUps.ups).length +
       (fetchBilibiliUserVideos oAttr false
         (staleUids false wSlashUps.cachedVideos 0 wSlashUps.ups)).1.length)
      = 2 := by
  decide
